import Mathlib

/-!
Verification of the Tw_stock_crawer news-scanning and market-table crawlers.

This file gives a shallow embedding, in Lean 4, of the pagination-and-cutoff
scanning algorithm of the four news crawlers (cnyes_news.py, ptt_news.py,
moneyudn_news.py, ctee_news.py), of the market-table empty-frame handling
(twse.py, faoi.py, mgts.py) and of the aggregate HTTP endpoint (server.py),
and proves or refutes the testable properties stated in the repository's
specification.

Modelling conventions, shared by all crawler embeddings:
* A `datetime` is an integer count of seconds.  Timezone-aware datetimes
  (cnyes) are Unix timestamps; the Taiwan local calendar day of such a
  timestamp `ts` is `⌊(ts + 8·3600) / 86400⌋`, which is exactly what Python's
  `datetime.fromtimestamp(ts, tz=TW_TZ).date()` computes.  Naive local
  datetimes (ptt, moneyudn, ctee) are seconds counted in the local zone, whose
  day is `⌊ts / 86400⌋`.  Comparison of two datetimes is integer comparison of
  the underlying counts, as in Python.
* A calendar date is its day number under the same convention, so "strictly
  earlier date" is `<` on day numbers.
* HTTP I/O is an oracle function passed to the crawler: fetching page `i`
  yields `Option page`, where `none` models a raised
  `requests.RequestException`/`ValueError` and `some` a successful response.
* External text-transformation libraries (markdownify, BeautifulSoup text
  extraction) are outside the program; the embedded record carries the string
  the source would feed to them, and no claim below depends on its contents.
-/

namespace TwStock

/-- Seconds of the UTC+8 offset of the Taiwan timezone (`TW_TZ`). -/
def twOffset : Int := 8 * 3600

/-- Taiwan-local calendar day of a Unix timestamp, as computed by
`datetime.fromtimestamp(ts, tz=TW_TZ).date()`. -/
def twDay (ts : Int) : Int := (ts + twOffset).fdiv 86400

/-- Second-of-day, in Taiwan local time, of a Unix timestamp. -/
def twSec (ts : Int) : Int := (ts + twOffset).emod 86400

/-- Calendar day of a naive (zone-less) local datetime, as computed by
Python's `naive_dt.date()` when the naive count is local seconds. -/
def naiveDay (ts : Int) : Int := ts.fdiv 86400

/-- Second-of-day of a naive local datetime. -/
def naiveSec (ts : Int) : Int := ts.emod 86400

/-- Two-digit zero padding, as in `strftime` fields `%H`, `%M`, `%S`. -/
def pad2 (n : Nat) : String := if n < 10 then "0" ++ toString n else toString n

/-- Rendering of a second-of-day as `strftime("%H:%M:%S")`. -/
def fmtHMS (s : Int) : String :=
  let n := s.toNat
  pad2 (n / 3600) ++ ":" ++ pad2 (n % 3600 / 60) ++ ":" ++ pad2 (n % 60)

/-- Conversion applied to every news table just before it is returned:
`df["Time"].replace("", None)` turns an empty time string into SQL NULL
(modelled as `none`) and keeps any other string. -/
def timeToDb (s : String) : Option String := if s = "" then none else some s

/-! ## CNYES (cnyes_news.py) -/

/-- One element of the CNYES JSON API's `items.data` list, with the fields
`parse_news_items` reads.  `publishAt` is `none` when the key is missing
(`item.get("publishAt") is None`); `author` carries the result of
`item.get("author", "") or ""`. -/
structure CnyesItem where
  publishAt : Option Int
  newsId : Nat
  author : String
  title : String
  keyword : List String
  content : String
deriving Repr, DecidableEq

/-- Embeds `_build_article_url`: the article URL derived from `newsId`. -/
def buildArticleUrl (newsId : Nat) : String :=
  "https://news.cnyes.com/news/id/" ++ toString newsId

/-- Embeds `_keywords_to_hashtag`: comma-join of the non-empty keywords. -/
def keywordsToHashtag (ks : List String) : String :=
  String.intercalate "," (ks.filter (fun k => k ≠ ""))

/-- Row of the CNYES result table, with the columns
`Date, Time, Author, Head, HashTag, url, Content` built by
`parse_news_items`.  `date` is the day number rendered by
`strftime("%Y-%m-%d")`; `content` is the string handed to
`_html_to_markdown`. -/
structure CnyesRow where
  date : Int
  time : String
  author : String
  head : String
  hashTag : String
  url : String
  content : String
deriving Repr, DecidableEq

/-- Row dictionary built inside `parse_news_items` for a matching item:
`dateField` is `target_date` in date mode and `article_dt`'s day in hours
mode, `ts` the item's `publishAt`. -/
def cnyesRowOf (item : CnyesItem) (dateField : Int) (ts : Int) : CnyesRow :=
  { date := dateField
    time := fmtHMS (twSec ts)
    author := item.author
    head := item.title
    hashTag := keywordsToHashtag item.keyword
    url := buildArticleUrl item.newsId
    content := item.content }

/-- Embeds `parse_news_items` (cnyes_news.py, lines 118–191): filters the
page's items against the cutoff and reports whether an out-of-range older
item was seen.  `cutoff = none` is date mode (keep items whose Taiwan day
equals `targetDay`, flag days strictly earlier); `cutoff = some c` is hours
mode (keep items with `article_dt >= cutoff_dt`, i.e. `c ≤ ts`, flag the
rest).  An item without `publishAt` is skipped with a warning. -/
def cnyesParseNewsItems (items : List CnyesItem) (targetDay : Int)
    (cutoff : Option Int) : List CnyesRow × Bool :=
  match items with
  | [] => ([], false)
  | item :: rest =>
    let r := cnyesParseNewsItems rest targetDay cutoff
    match item.publishAt with
    | none => r
    | some ts =>
      match cutoff with
      | some c =>
        if c ≤ ts then (cnyesRowOf item (twDay ts) ts :: r.1, r.2)
        else (r.1, true)
      | none =>
        if twDay ts = targetDay then (cnyesRowOf item targetDay ts :: r.1, r.2)
        else if twDay ts < targetDay then (r.1, true)
        else r

/-- One successful CNYES API response: the `items.data` news list and the
`items.last_page` page count read on page 1. -/
structure CnyesApiPage where
  data : List CnyesItem
  lastPage : Nat
deriving Repr

/-- Iterations of the `while page <= last_page` loop of `cnyes_news_crawler`
from page `page` on, once `last_page` is fixed; `fuel` is the number of page
numbers still allowed (`last_page - page + 1`).  Returns the accumulated
matching rows and the list of pages actually fetched (attempted), in order.
A failed fetch, an empty page or a page with an older item each end the
loop. -/
def cnyesScanFrom (fetch : Nat → Option CnyesApiPage) (targetDay : Int)
    (cutoff : Option Int) : Nat → Nat → List CnyesRow × List Nat
  | 0, _ => ([], [])
  | fuel + 1, page =>
    match fetch page with
    | none => ([], [page])
    | some p =>
      if p.data.isEmpty then ([], [page])
      else
        let pr := cnyesParseNewsItems p.data targetDay cutoff
        if pr.2 then (pr.1, [page])
        else
          let rest := cnyesScanFrom fetch targetDay cutoff fuel (page + 1)
          (pr.1 ++ rest.1, page :: rest.2)

/-- Embeds the page loop of `cnyes_news_crawler` (lines 232–268): page 1 is
fetched with `last_page` initially 1, `last_page` is updated from the first
response, and pages 2..`last_page` follow via `cnyesScanFrom`.  Returns the
accumulated article rows and the pages fetched. -/
def cnyesCrawlerScan (fetch : Nat → Option CnyesApiPage) (targetDay : Int)
    (cutoff : Option Int) : List CnyesRow × List Nat :=
  match fetch 1 with
  | none => ([], [1])
  | some p =>
    if p.data.isEmpty then ([], [1])
    else
      let pr := cnyesParseNewsItems p.data targetDay cutoff
      if pr.2 then (pr.1, [1])
      else
        let rest := cnyesScanFrom fetch targetDay cutoff (p.lastPage - 1) 2
        (pr.1 ++ rest.1, 1 :: rest.2)

/-- Final CNYES table row after `df["Time"].replace("", None)`. -/
structure CnyesDbRow where
  date : Int
  time : Option String
  author : String
  head : String
  hashTag : String
  url : String
  content : String
deriving Repr, DecidableEq

/-- Database form of a parsed CNYES row. -/
def CnyesRow.toDb (r : CnyesRow) : CnyesDbRow :=
  { r with time := timeToDb r.time }

/-- Embeds `cnyes_news_crawler`'s returned table: the scan's rows with the
empty-`Time` replacement applied (an empty scan yields the empty frame of
`_gen_empty_df`, i.e. the empty list of rows). -/
def cnyesCrawler (fetch : Nat → Option CnyesApiPage) (targetDay : Int)
    (cutoff : Option Int) : List CnyesDbRow :=
  ((cnyesCrawlerScan fetch targetDay cutoff).1).map CnyesRow.toDb

example :
    cnyesParseNewsItems
      [⟨some 86400, 1, "a", "t", [], "c"⟩, ⟨some 0, 2, "a", "t", [], "c"⟩]
      1 none = ([cnyesRowOf ⟨some 86400, 1, "a", "t", [], "c"⟩ 1 86400], true) := by
  decide

/-! ## Rows shared by PTT and MoneyUDN

Both crawlers return tables with the columns
`Date, Time, Author, Head, url, Content`. -/

/-- Row of a PTT/MoneyUDN result table before the `Time` replacement. -/
structure BasicRow where
  date : Int
  time : String
  author : String
  head : String
  url : String
  content : String
deriving Repr, DecidableEq

/-- Final PTT/MoneyUDN table row after `df["Time"].replace("", None)`. -/
structure BasicDbRow where
  date : Int
  time : Option String
  author : String
  head : String
  url : String
  content : String
deriving Repr, DecidableEq

/-- Database form of a parsed PTT/MoneyUDN row. -/
def BasicRow.toDb (r : BasicRow) : BasicDbRow :=
  { r with time := timeToDb r.time }

/-! ## PTT (ptt_news.py) -/

/-- One `div.r-ent` entry of a PTT listing page, with the fields
`parse_list_articles` reads.  `hasLink` is false for deleted posts (no `<a>`
inside the title div, or no title div at all).  `listDate` records the
outcome of reading the date cell: `none` when the `div.date` element is
missing, `some none` when `_parse_list_date` cannot parse its text (bad
format or invalid month/day for the target year), and `some (some d)` when
it parses to the local day number `d`. -/
structure PttEntry where
  hasLink : Bool
  href : String
  title : String
  author : String
  listDate : Option (Option Int)
deriving Repr, DecidableEq

/-- Base URL prefixed to listing hrefs (`PTT_BASE_URL`). -/
def pttBaseUrl : String := "https://www.ptt.cc"

/-- Candidate produced by the PTT listing parse: `url`, `title`, `author`. -/
structure PttCand where
  url : String
  title : String
  author : String
deriving Repr, DecidableEq

/-- Candidate record built by `parse_list_articles` for one entry. -/
def pttCandOf (e : PttEntry) : PttCand :=
  { url := if e.href ≠ "" then pttBaseUrl ++ e.href else ""
    title := e.title
    author := e.author }

/-- Embeds `parse_list_articles` (ptt_news.py, lines 197–296).  Deleted
posts are skipped; an entry whose date is missing or unparseable is
conservatively included.  `cutoffDay = none` is date mode (keep entries on
`targetDay`, flag strictly earlier days); `cutoffDay = some cd` is hours
mode (keep entries dated on or after `cd`, flag earlier ones). -/
def pttParseList (entries : List PttEntry) (targetDay : Int)
    (cutoffDay : Option Int) : List PttCand × Bool :=
  match entries with
  | [] => ([], false)
  | e :: rest =>
    let r := pttParseList rest targetDay cutoffDay
    if e.hasLink then
      match e.listDate with
      | some (some d) =>
        match cutoffDay with
        | some cd =>
          if cd ≤ d then (pttCandOf e :: r.1, r.2) else (r.1, true)
        | none =>
          if d = targetDay then (pttCandOf e :: r.1, r.2)
          else if d < targetDay then (r.1, true)
          else r
      | some none => (pttCandOf e :: r.1, r.2)
      | none => (pttCandOf e :: r.1, r.2)
    else r

/-- Embeds the `while current_url` loop of `ptt_news_crawler` (lines
389–411) over the finite chain of listing pages reached by following the
previous-page links: element `i` of `chain` is the fetch outcome of the
`i`-th page (`none` models a raised `requests.RequestException`), and the
end of the list models a page without a previous-page link.  Returns the
accumulated candidates and the number of pages fetched.  A fetch failure or
a page carrying an older item ends the loop; an empty page does not. -/
def pttScanChain (targetDay : Int) (cutoffDay : Option Int) :
    List (Option (List PttEntry)) → List PttCand × Nat
  | [] => ([], 0)
  | none :: _ => ([], 1)
  | some pg :: rest =>
    let pr := pttParseList pg targetDay cutoffDay
    if pr.2 then (pr.1, 1)
    else
      let r := pttScanChain targetDay cutoffDay rest
      (pr.1 ++ r.1, r.2 + 1)

/-- Result of `fetch_article_detail` for one article page:
`fullDatetime` is the parsed metaline timestamp in naive local seconds
(`none` when the header is missing or unparseable), `content` the extracted
full text. -/
structure PttDetail where
  fullDatetime : Option Int
  content : String
deriving Repr, DecidableEq

/-- Time string of an article detail, as built in `fetch_article_detail`:
`strftime("%H:%M:%S")` of the parsed timestamp, or `""`. -/
def pttTimeStr (d : PttDetail) : String :=
  match d.fullDatetime with
  | some t => fmtHMS (naiveSec t)
  | none => ""

/-- Row appended by the enrichment loop of `ptt_news_crawler` for an
accepted candidate; `dateDay` is the article's own day when the detail
carries a timestamp, else the queried date. -/
def pttRowOf (c : PttCand) (d : PttDetail) (dateDay : Int) : BasicRow :=
  { date := dateDay
    time := pttTimeStr d
    author := c.author
    head := c.title
    url := c.url
    content := d.content }

/-- Embeds the enrichment loop of `ptt_news_crawler` (lines 420–465).
`detail` is the article-fetch oracle (`none` models any exception, which is
caught and the candidate skipped).  A candidate with an empty URL is
skipped; when the detail carries a full timestamp the cutoff is re-checked
precisely (hours mode compares against the naive cutoff instant, date mode
re-validates the day). -/
def pttEnrich (detail : String → Option PttDetail) (targetDay : Int)
    (naiveCutoff : Option Int) : List PttCand → List BasicRow
  | [] => []
  | c :: rest =>
    let r := pttEnrich detail targetDay naiveCutoff rest
    if c.url = "" then r
    else
      match detail c.url with
      | none => r
      | some d =>
        match d.fullDatetime with
        | some fdt =>
          match naiveCutoff with
          | some nc =>
            if fdt < nc then r else pttRowOf c d (naiveDay fdt) :: r
          | none =>
            if naiveDay fdt ≠ targetDay then r
            else pttRowOf c d (naiveDay fdt) :: r
        | none => pttRowOf c d targetDay :: r

/-- Embeds `ptt_news_crawler`: list scan over the page chain, enrichment of
every candidate, and the final empty-`Time` replacement.  `hoursCutoff` is
`now − hours` in naive local seconds when hours mode is active; the coarse
listing filter uses its calendar day, the precise enrichment filter the
instant itself, exactly as in the source. -/
def pttCrawler (chain : List (Option (List PttEntry)))
    (detail : String → Option PttDetail) (targetDay : Int)
    (hoursCutoff : Option Int) : List BasicDbRow :=
  let cutoffDay := hoursCutoff.map naiveDay
  let cands := (pttScanChain targetDay cutoffDay chain).1
  (pttEnrich detail targetDay hoursCutoff cands).map BasicRow.toDb

/-! ## MoneyUDN (moneyudn_news.py) -/

/-- One JSON-LD `NewsArticle` of a MoneyUDN listing page, with the fields
`_collect_candidates_from_pages` reads.  `datePublished` is the outcome of
`_parse_published_date` in naive local seconds (`none` when the field is
missing or unparseable; an offset-aware value compares identically after
the `tzinfo` strip under this convention); `author` carries the result of
`_extract_author`. -/
structure MdnItem where
  datePublished : Option Int
  url : String
  name : String
  headline : String
  author : String
deriving Repr, DecidableEq

/-- Base URL of MoneyUDN (`MONEYUDN_BASE_URL`). -/
def mdnBaseUrl : String := "https://money.udn.com"

/-- Prefix of a string before its first `'?'`, i.e. Python's
`url.split("?")[0]` (kept structurally recursive so that it evaluates
inside the kernel). -/
def stripQuery (u : String) : String :=
  ⟨u.data.takeWhile (fun ch => ch ≠ '?')⟩

/-- Boolean prefix test on strings, i.e. Python's `startswith`. -/
def strStartsWith (s p : String) : Bool := p.data.isPrefixOf s.data

/-- Embeds `_build_full_url`: drop the query string, prefix the base URL
unless the link is already absolute. -/
def buildFullUrl (u : String) : String :=
  let v := stripQuery u
  if strStartsWith v "http" then v else mdnBaseUrl ++ v

/-- Candidate collected from the MoneyUDN listing scan. -/
structure MdnCand where
  name : String
  url : String
  author : String
  timeStr : String
  dateDay : Int
deriving Repr, DecidableEq

/-- Candidate record built for one accepted MoneyUDN item. -/
def mdnCandOf (it : MdnItem) (ts : Int) : MdnCand :=
  { name := if it.name = "" then it.headline else it.name
    url := buildFullUrl it.url
    author := it.author
    timeStr := fmtHMS (naiveSec ts)
    dateDay := naiveDay ts }

/-- Embeds the per-page item loop of `_collect_candidates_from_pages`
(moneyudn_news.py, lines 316–362), threading the cross-page `seen_urls` set
(as a list) and returning the new candidates, the updated set and the
`passed_target` flag.  An unparseable date skips the item; an item past the
boundary `break`s out of the page immediately; an empty or already-seen URL
skips the item. -/
def mdnProcessItems (targetDay : Int) (cutoff : Option Int) :
    List MdnItem → List String → List MdnCand × List String × Bool
  | [], seen => ([], seen, false)
  | it :: rest, seen =>
    match it.datePublished with
    | none => mdnProcessItems targetDay cutoff rest seen
    | some ts =>
      let keep : List MdnCand × List String × Bool :=
        if it.url = "" then mdnProcessItems targetDay cutoff rest seen
        else
          let fu := buildFullUrl it.url
          if fu ∈ seen then mdnProcessItems targetDay cutoff rest seen
          else
            let r := mdnProcessItems targetDay cutoff rest (fu :: seen)
            (mdnCandOf it ts :: r.1, r.2.1, r.2.2)
      match cutoff with
      | some c => if ts < c then ([], seen, true) else keep
      | none =>
        if naiveDay ts < targetDay then ([], seen, true)
        else if naiveDay ts ≠ targetDay then
          mdnProcessItems targetDay cutoff rest seen
        else keep

/-- Page limit `MAX_LIST_PAGES` of the MoneyUDN listing scan. -/
def mdnMaxPages : Nat := 10

/-- Embeds the page loop of `_collect_candidates_from_pages` (lines
297–368): `fetch page` is the listing-fetch oracle (`none` models a raised
`requests.RequestException`), `fuel` the page numbers still allowed.
A fetch failure, an empty page or a `passed_target` page ends the loop. -/
def mdnLoop (fetch : Nat → Option (List MdnItem)) (targetDay : Int)
    (cutoff : Option Int) : Nat → Nat → List String → List MdnCand
  | 0, _, _ => []
  | fuel + 1, page, seen =>
    match fetch page with
    | none => []
    | some items =>
      if items.isEmpty then []
      else
        let r := mdnProcessItems targetDay cutoff items seen
        if r.2.2 then r.1
        else r.1 ++ mdnLoop fetch targetDay cutoff fuel (page + 1) r.2.1

/-- Embeds `_collect_candidates_from_pages`: pages 1..`MAX_LIST_PAGES` with
an initially empty `seen_urls` set. -/
def mdnCollect (fetch : Nat → Option (List MdnItem)) (targetDay : Int)
    (cutoff : Option Int) : List MdnCand :=
  mdnLoop fetch targetDay cutoff mdnMaxPages 1 []

/-- Embeds the enrichment loop of `moneyudn_news_crawler` (lines 423–447):
`content` is the article-fetch oracle (`none` models any exception, which
is caught and the candidate dropped). -/
def mdnEnrich (content : String → Option String) :
    List MdnCand → List BasicRow
  | [] => []
  | c :: rest =>
    match content c.url with
    | none => mdnEnrich content rest
    | some body =>
      { date := c.dateDay, time := c.timeStr, author := c.author,
        head := c.name, url := c.url, content := body } :: mdnEnrich content rest

/-- Embeds `moneyudn_news_crawler`: listing collection, enrichment and the
final empty-`Time` replacement. -/
def mdnCrawler (fetch : Nat → Option (List MdnItem))
    (content : String → Option String) (targetDay : Int)
    (cutoff : Option Int) : List BasicDbRow :=
  (mdnEnrich content (mdnCollect fetch targetDay cutoff)).map BasicRow.toDb

/-! ## CTEE (ctee_news.py)

The embedding below covers the result-assembly ("merge") stage of
`ctee_news_crawler` (lines 500–615): the two candidate streams produced by
the earlier listing stages — API matches from `filter_api_articles` and
HTML candidates from `parse_html_list` — are taken as inputs, and the
per-URL deduplication, per-article enrichment, hours-mode precise
re-filtering and final empty-`Time` replacement are modelled in full. -/

/-- One API match produced by `filter_api_articles`: title, author, the
time part of `publishDatetime` as extracted by `_extract_time` (empty when
the field carries no time), the absolute article URL built from
`hyperLink`, and the article's day (`article_date` is always set on a
match). -/
structure CteeApiArt where
  title : String
  author : String
  pubTime : String
  url : String
  articleDay : Int
deriving Repr, DecidableEq

/-- One HTML candidate produced by `parse_html_list`: URL and title only. -/
structure CteeHtmlCand where
  url : String
  title : String
deriving Repr, DecidableEq

/-- Result of `fetch_article_content` for one CTEE article page. -/
structure CteeExtra where
  subHead : String
  hashTag : String
  content : String
  time : String
  author : String
deriving Repr, DecidableEq

/-- Row of the CTEE result table, columns
`Date, Time, Author, Head, SubHead, HashTag, url, Content`. -/
structure CteeRow where
  date : Int
  time : String
  author : String
  head : String
  subHead : String
  hashTag : String
  url : String
  content : String
deriving Repr, DecidableEq

/-- Final CTEE table row after `df["Time"].replace("", None)`. -/
structure CteeDbRow where
  date : Int
  time : Option String
  author : String
  head : String
  subHead : String
  hashTag : String
  url : String
  content : String
deriving Repr, DecidableEq

/-- Database form of a CTEE row. -/
def CteeRow.toDb (r : CteeRow) : CteeDbRow :=
  { r with time := timeToDb r.time }

/-- Splitting of a character list at every occurrence of a separator,
mirroring Python's `str.split(sep)` for a one-character separator. -/
def splitOnChar (c : Char) : List Char → List (List Char)
  | [] => [[]]
  | x :: xs =>
    match splitOnChar c xs with
    | [] => [[]]
    | y :: ys => if x = c then [] :: y :: ys else (x :: y) :: ys

/-- All-digit numeral reading of a character list, mirroring the strict
field parse of `strptime` (`none` on an empty or non-digit field). -/
def charsToNat? (l : List Char) : Option Nat :=
  if l.isEmpty then none
  else
    l.foldl
      (fun acc ch =>
        match acc with
        | none => none
        | some n => if ch.isDigit then some (n * 10 + (ch.toNat - 48)) else none)
      (some 0)

/-- Embeds `_parse_article_datetime` (ctee_news.py, lines 389–410): parse
an `HH:MM:SS` time string (anything after a `+` is dropped first, as in
`time_str.split("+")[0]`) and combine it with the fallback day into a
naive local instant; `none` when the string is empty or not of that
shape. -/
def parseArticleDatetime (timeStr : String) (day : Int) : Option Int :=
  if timeStr = "" then none
  else
    match splitOnChar ':' (timeStr.data.takeWhile (fun ch => ch ≠ '+')) with
    | [h, m, s] =>
      match charsToNat? h, charsToNat? m, charsToNat? s with
      | some hh, some mm, some ss =>
        if hh < 24 ∧ mm < 60 ∧ ss < 60 then
          some (day * 86400 + (hh * 3600 + mm * 60 + ss : Nat))
        else none
      | _, _, _ => none
    | _ => none

/-- Embeds the first merge loop of `ctee_news_crawler` (lines 509–555):
API candidates are deduplicated against the running `all_urls` set, each is
enriched through the `fetchC` oracle (`none` models any exception, which is
caught and the candidate skipped with its URL already marked seen), the
article-page time and author take precedence over the API metadata, and in
hours mode the precise article instant is re-checked against the naive
cutoff. -/
def cteeMergeApi (fetchC : String → Option CteeExtra)
    (naiveCutoff : Option Int) : List CteeApiArt → List String →
    List CteeRow × List String
  | [], seen => ([], seen)
  | a :: rest, seen =>
    if a.url ∈ seen then cteeMergeApi fetchC naiveCutoff rest seen
    else
      match fetchC a.url with
      | none => cteeMergeApi fetchC naiveCutoff rest (a.url :: seen)
      | some ex =>
        let articleTime := if ex.time ≠ "" then ex.time else a.pubTime
        let author := if ex.author ≠ "" then ex.author else a.author
        let skip :=
          match naiveCutoff with
          | some nc =>
            if articleTime ≠ "" then
              match parseArticleDatetime articleTime a.articleDay with
              | some dt => decide (dt < nc)
              | none => false
            else false
          | none => false
        let r := cteeMergeApi fetchC naiveCutoff rest (a.url :: seen)
        if skip then r
        else
          ({ date := a.articleDay, time := articleTime, author := author,
             head := a.title, subHead := ex.subHead, hashTag := ex.hashTag,
             url := a.url, content := ex.content } :: r.1, r.2)

/-- Embeds the second merge loop of `ctee_news_crawler` (lines 558–598)
over the HTML-only candidates, which carry no listing metadata: date falls
back to the queried date, and time/author come from the article page. -/
def cteeMergeHtml (fetchC : String → Option CteeExtra)
    (naiveCutoff : Option Int) (targetDay : Int) :
    List CteeHtmlCand → List String → List CteeRow × List String
  | [], seen => ([], seen)
  | c :: rest, seen =>
    if c.url ∈ seen then cteeMergeHtml fetchC naiveCutoff targetDay rest seen
    else
      match fetchC c.url with
      | none => cteeMergeHtml fetchC naiveCutoff targetDay rest (c.url :: seen)
      | some ex =>
        let skip :=
          match naiveCutoff with
          | some nc =>
            if ex.time ≠ "" then
              match parseArticleDatetime ex.time targetDay with
              | some dt => decide (dt < nc)
              | none => false
            else false
          | none => false
        let r := cteeMergeHtml fetchC naiveCutoff targetDay rest (c.url :: seen)
        if skip then r
        else
          ({ date := targetDay, time := ex.time, author := ex.author,
             head := c.title, subHead := ex.subHead, hashTag := ex.hashTag,
             url := c.url, content := ex.content } :: r.1, r.2)

/-- Embeds the result assembly of `ctee_news_crawler`: API candidates
first, then HTML candidates against the same `all_urls` set, then the final
empty-`Time` replacement. -/
def cteeCrawlerMerge (fetchC : String → Option CteeExtra)
    (naiveCutoff : Option Int) (targetDay : Int)
    (apiArts : List CteeApiArt) (htmlCands : List CteeHtmlCand) :
    List CteeDbRow :=
  let r1 := cteeMergeApi fetchC naiveCutoff apiArts []
  let r2 := cteeMergeHtml fetchC naiveCutoff targetDay htmlCands r1.2
  (r1.1 ++ r2.1).map CteeRow.toDb

/-! ## Market-table crawlers (twse.py, faoi.py, mgts.py) -/

/-- A pandas DataFrame reduced to what the claims observe: its ordered
column list and its rows. -/
structure Frame where
  cols : List String
  rows : List (List String)
deriving Repr, DecidableEq

/-- Embeds `en_columns()` of twse.py: the fixed English column set of the
TWSE table, exactly as spelled in the source. -/
def twseEnColumns : List String :=
  ["SecurityCode", "StockName", "TradeVolume", "Transaction", "TradeValue",
   "OpeningPrice", "HightestPrice", "LowestPrice", "ClosePrice", "Dir",
   "Change", "LastBestBidPrice", "LastBestBidVolume", "LastBestAskPrice",
   "LastBestAskVolume", "PriceEarningratio"]

/-- Embeds the sentinel dispatch of `parse_twse_data` (twse.py, lines
161–167): on `stat == "OK"` the post-processed ninth table is returned (the
post-processing — column renaming and numeric coercion — is taken as the
parameter `okTable`, as no claim depends on it); on any other status the
empty frame `pd.DataFrame(columns=en_columns())` is returned. -/
def twseParseData (stat : String) (okTable : Frame) : Frame :=
  if stat = "OK" then okTable else ⟨twseEnColumns, []⟩

/-- Embeds `en_columns()` of faoi.py. -/
def faoiEnColumns : List String :=
  ["SecurityCode", "StockName", "ForeignInvestorsTotalBuy",
   "ForeignInvestorsTotalSell", "ForeignInvestorsDifference",
   "ForeignDealersTotalBuy", "ForeignDealersTotalSell",
   "ForeignDealersDifference", "SecuritiesInvestmentTotalBuy",
   "SecuritiesInvestmentTotalSell", "SecuritiesInvestmentDifference",
   "DealersDifference", "DealersProprietaryTotalBuy",
   "DealersProprietaryTotalSell", "DealersProprietaryDifference",
   "DealersHedgeTotalBuy", "DealersHedgeTotalSell",
   "DealersHedgeDifference", "TotalDifference"]

/-- Embeds `gen_empty_date_df` of faoi.py (lines 114–123): an empty frame
with the English columns and a null-typed `Date` column inserted first. -/
def faoiGenEmptyDateDf : Frame := ⟨"Date" :: faoiEnColumns, []⟩

/-- Embeds the sentinel dispatch of `parse_faoi_data` (faoi.py, lines
125–143). -/
def faoiParseData (stat : String) (okTable : Frame) : Frame :=
  if stat = "OK" then okTable else faoiGenEmptyDateDf

/-- Embeds `en_columns()` of mgts.py. -/
def mgtsEnColumns : List String :=
  ["SecurityCode", "StockName", "MarginPurchase", "MarginSales",
   "CashRedemption", "MarginPurchaseBalanceOfPreviousDay",
   "MarginPurchaseBalanceOfTheDay", "MarginPurchaseQuotaForTheNextDay",
   "ShortCovering", "ShortSale", "StockRedemption",
   "ShortSaleBalanceOfPreviousDay", "ShortSaleBalanceOfTheDay",
   "ShortSaleQuotaForTheNextDay",
   "OffsettingOfMarginPurchasesAndShortSales", "Note"]

/-- Embeds `gen_empty_date_df` of mgts.py (lines 111–120). -/
def mgtsGenEmptyDateDf : Frame := ⟨"Date" :: mgtsEnColumns, []⟩

/-- Embeds the sentinel dispatch of `parse_mgts_data` (mgts.py, lines
122–140). -/
def mgtsParseData (stat : String) (okTable : Frame) : Frame :=
  if stat = "OK" then okTable else mgtsGenEmptyDateDf

/-! ## HTTP server (server.py) -/

/-- One value of the aggregate endpoint's `data` mapping: either a source's
records (`df.to_dict(orient="records")`, modelled by the frame itself) or
the `{"error": ...}` entry built from a caught exception. -/
inductive SourceEntry where
  | recs (t : Frame)
  | err (msg : String)
deriving Repr, DecidableEq

/-- Entry recorded by `crawl_all` for one completed worker: the rows on
success, the stringified exception on failure (`except Exception` around
`future.result()`). -/
def entryOf : Except String Frame → SourceEntry
  | .ok t => .recs t
  | .error e => .err e

/-- Response of the aggregate endpoint: FastAPI's default success status
and the JSON body `{date, data}`. -/
structure AggResponse where
  status : Nat
  date : Int
  data : List (String × SourceEntry)
deriving Repr, DecidableEq

/-- Embeds `crawl_all` (server.py, lines 85–114).  The thread pool's
`as_completed` iteration hands back the configured sources in an arbitrary
completion order; `completed` is that order (a permutation of the
`CRAWLERS` items paired with each crawler's outcome), and the `results`
dict collects one entry per source as each worker finishes. -/
def crawlAll (completed : List (String × Except String Frame)) (d : Int) :
    AggResponse :=
  { status := 200
    date := d
    data := completed.map (fun p => (p.1, entryOf p.2)) }

/-- Response of a single news-source endpoint in hours mode. -/
inductive NewsResponse where
  | ok (hours : Nat) (data : List BasicDbRow)
  | clientError (status : Nat)
deriving Repr, DecidableEq

/-- Modelled from the spec: the per-news-source route handlers with their
`hours` query parameter are absent from src/server.py (only
test/test_server.py exercises them, expecting FastAPI's 422 validation
error for `hours=0` and `hours=73`).  Following §6 of the spec,
`GET /{news_source}?hours=N` accepts 1 ≤ N ≤ 72 and answers an
out-of-range value with a client-error status without invoking the
crawler. -/
def newsEndpoint (crawler : Nat → List BasicDbRow) (hours : Nat) :
    NewsResponse :=
  if 1 ≤ hours ∧ hours ≤ 72 then .ok hours (crawler hours)
  else .clientError 422

/-! ## Helper lemmas -/

/-- An empty-string time never survives `timeToDb`. -/
theorem timeToDb_ne_some_empty (s : String) : timeToDb s ≠ some "" := by
  unfold timeToDb
  split <;> simp_all

/-! ## C7 -/

/-- C7: the claim says every market-data crawler answers a non-`"OK"`
sentinel status with a zero-row table over the full fixed English column
set including a null-typed `Date` column.  The faoi and mgts parsers do
(`gen_empty_date_df` inserts `Date` first), but the twse parser returns
`pd.DataFrame(columns=en_columns())`, whose column set does not contain
`Date` — contradicting the repository's own test_twse.py, which expects a
`Date` column (and even calls a `gen_empty_date_df` that twse.py does not
define). -/
theorem twse_empty_frame_lacks_date (stat : String) (okTable : Frame)
    (h : stat ≠ "OK") :
    (twseParseData stat okTable).rows = [] ∧
    (twseParseData stat okTable).cols = twseEnColumns ∧
    "Date" ∉ (twseParseData stat okTable).cols ∧
    faoiParseData stat okTable = ⟨"Date" :: faoiEnColumns, []⟩ ∧
    mgtsParseData stat okTable = ⟨"Date" :: mgtsEnColumns, []⟩ := by
  rw [twseParseData, faoiParseData, mgtsParseData, if_neg h, if_neg h, if_neg h]
  refine ⟨rfl, rfl, ?_, rfl, rfl⟩
  decide

/-- Witness for `twse_empty_frame_lacks_date`, at the sentinel status
`"NG"` used by test_twse.py. -/
theorem twse_empty_frame_lacks_date_witness :
    (twseParseData "NG" ⟨[], []⟩).rows = [] ∧
    (twseParseData "NG" ⟨[], []⟩).cols = twseEnColumns ∧
    "Date" ∉ (twseParseData "NG" ⟨[], []⟩).cols ∧
    faoiParseData "NG" ⟨[], []⟩ = ⟨"Date" :: faoiEnColumns, []⟩ ∧
    mgtsParseData "NG" ⟨[], []⟩ = ⟨"Date" :: mgtsEnColumns, []⟩ :=
  twse_empty_frame_lacks_date "NG" ⟨[], []⟩ (by decide)

/-! ## C8 -/

/-- C8: whatever order the worker pool completes in, the aggregate endpoint
responds with success status, records an `{error: ...}` entry under the key
of every source whose crawler raised, and passes every non-failing source's
records through unchanged. -/
theorem crawl_all_isolates_failures
    (crawlers completed : List (String × Except String Frame)) (d : Int)
    (hperm : completed.Perm crawlers) :
    (crawlAll completed d).status = 200 ∧
    ∀ p ∈ crawlers,
      (∀ e, p.2 = .error e →
        (p.1, SourceEntry.err e) ∈ (crawlAll completed d).data) ∧
      (∀ t, p.2 = .ok t →
        (p.1, SourceEntry.recs t) ∈ (crawlAll completed d).data) := by
  refine ⟨rfl, fun p hp => ?_⟩
  have hp' : p ∈ completed := hperm.mem_iff.mpr hp
  have hmem : (p.1, entryOf p.2) ∈ (crawlAll completed d).data :=
    List.mem_map_of_mem (fun q => (q.1, entryOf q.2)) hp'
  constructor
  · intro e he
    rw [he] at hmem
    exact hmem
  · intro t ht
    rw [ht] at hmem
    exact hmem

/-- Witness for `crawl_all_isolates_failures`: two configured sources, the
second failing, completing in reversed order — the response keeps the first
source's rows and an error entry for the second. -/
theorem crawl_all_isolates_failures_witness :
    (crawlAll [("tpex", .error "connection error"), ("twse", .ok ⟨["Date"], [["x"]]⟩)] 0).status = 200 ∧
    ("twse", SourceEntry.recs ⟨["Date"], [["x"]]⟩) ∈
      (crawlAll [("tpex", .error "connection error"), ("twse", .ok ⟨["Date"], [["x"]]⟩)] 0).data ∧
    ("tpex", SourceEntry.err "connection error") ∈
      (crawlAll [("tpex", .error "connection error"), ("twse", .ok ⟨["Date"], [["x"]]⟩)] 0).data := by
  have h := crawl_all_isolates_failures
    [("twse", .ok ⟨["Date"], [["x"]]⟩), ("tpex", .error "connection error")]
    [("tpex", .error "connection error"), ("twse", .ok ⟨["Date"], [["x"]]⟩)] 0
    (List.Perm.swap _ _ _)
  refine ⟨h.1, ?_, ?_⟩
  · exact (h.2 ("twse", .ok ⟨["Date"], [["x"]]⟩) (by simp)).2 _ rfl
  · exact (h.2 ("tpex", .error "connection error") (by simp)).1 _ rfl

/-! ## C9 -/

/-- C9: each news-source endpoint takes an `hours` query parameter,
accepts exactly 1..72, and answers an out-of-range value with client-error
status 422 without invoking the crawler (the response is independent of the
crawler). -/
theorem news_endpoint_hours_validation (crawler : Nat → List BasicDbRow)
    (hours : Nat) :
    (¬(1 ≤ hours ∧ hours ≤ 72) →
      newsEndpoint crawler hours = .clientError 422 ∧
      ∀ other : Nat → List BasicDbRow,
        newsEndpoint other hours = newsEndpoint crawler hours) ∧
    ((1 ≤ hours ∧ hours ≤ 72) →
      newsEndpoint crawler hours = .ok hours (crawler hours)) := by
  constructor
  · intro hout
    rw [newsEndpoint, if_neg hout]
    exact ⟨rfl, fun other => by rw [newsEndpoint, if_neg hout]⟩
  · intro hin
    rw [newsEndpoint, if_pos hin]

/-- Witness for `news_endpoint_hours_validation`, at `hours = 73`
(rejected, crawler-independent) and `hours = 24` (accepted). -/
theorem news_endpoint_hours_validation_witness :
    (newsEndpoint (fun _ => []) 73 = .clientError 422 ∧
      ∀ other : Nat → List BasicDbRow,
        newsEndpoint other 73 = newsEndpoint (fun _ => []) 73) ∧
    newsEndpoint (fun _ => []) 24 = .ok 24 [] :=
  ⟨(news_endpoint_hours_validation (fun _ => []) 73).1 (by decide),
   (news_endpoint_hours_validation (fun _ => []) 24).2 (by decide)⟩

/-! ## C10 -/

/-- C10: in every news crawler's returned table, no row carries an empty
string in the `Time` column — the final `df["Time"].replace("", None)`
turns it into NULL. -/
theorem news_time_never_empty_string :
    (∀ fetch targetDay cutoff r, r ∈ cnyesCrawler fetch targetDay cutoff →
      r.time ≠ some "") ∧
    (∀ chain detail targetDay hoursCutoff r,
      r ∈ pttCrawler chain detail targetDay hoursCutoff → r.time ≠ some "") ∧
    (∀ fetch content targetDay cutoff r,
      r ∈ mdnCrawler fetch content targetDay cutoff → r.time ≠ some "") ∧
    (∀ fetchC naiveCutoff targetDay apiArts htmlCands r,
      r ∈ cteeCrawlerMerge fetchC naiveCutoff targetDay apiArts htmlCands →
      r.time ≠ some "") := by
  refine ⟨?_, ?_, ?_, ?_⟩
  · intro fetch targetDay cutoff r hr
    rw [cnyesCrawler] at hr
    obtain ⟨a, _, rfl⟩ := List.mem_map.mp hr
    exact timeToDb_ne_some_empty a.time
  · intro chain detail targetDay hoursCutoff r hr
    rw [pttCrawler] at hr
    obtain ⟨a, _, rfl⟩ := List.mem_map.mp hr
    exact timeToDb_ne_some_empty a.time
  · intro fetch content targetDay cutoff r hr
    rw [mdnCrawler] at hr
    obtain ⟨a, _, rfl⟩ := List.mem_map.mp hr
    exact timeToDb_ne_some_empty a.time
  · intro fetchC naiveCutoff targetDay apiArts htmlCands r hr
    rw [cteeCrawlerMerge] at hr
    obtain ⟨a, _, rfl⟩ := List.mem_map.mp hr
    exact timeToDb_ne_some_empty a.time

/-- Processing one CNYES page is compositional in the item list: every
item is examined, with matches concatenated in page order and the
older-item flags disjoined — no suffix is skipped. -/
theorem cnyesParse_append (xs ys : List CnyesItem) (d : Int)
    (c : Option Int) :
    cnyesParseNewsItems (xs ++ ys) d c =
      ((cnyesParseNewsItems xs d c).1 ++ (cnyesParseNewsItems ys d c).1,
       ((cnyesParseNewsItems xs d c).2 || (cnyesParseNewsItems ys d c).2)) := by
  induction xs with
  | nil => simp [cnyesParseNewsItems]
  | cons it rest ih =>
    cases hpa : it.publishAt with
    | none => simp [cnyesParseNewsItems, hpa, ih]
    | some ts =>
      cases c with
      | none =>
        by_cases h1 : twDay ts = d
        · simp [cnyesParseNewsItems, hpa, h1, ih]
        · by_cases h2 : twDay ts < d
          · simp [cnyesParseNewsItems, hpa, h1, h2, ih]
          · simp [cnyesParseNewsItems, hpa, h1, h2, ih]
      | some cc =>
        by_cases h1 : cc ≤ ts
        · simp [cnyesParseNewsItems, hpa, h1, ih]
        · simp [cnyesParseNewsItems, hpa, h1, ih]

/-- An item "past the boundary" of the active cutoff: strictly before the
cutoff instant in hours mode, on a strictly earlier day in date mode. -/
def mdnPastBoundary (targetDay : Int) (cutoff : Option Int)
    (it : MdnItem) : Prop :=
  ∃ ts, it.datePublished = some ts ∧
    match cutoff with
    | some c => ts < c
    | none => naiveDay ts < targetDay

/-- MoneyUDN's per-page loop discards everything after the first
past-boundary item of a page: the items `ys` behind it are never
examined. -/
theorem mdnProcessItems_break (td : Int) (c : Option Int) (it : MdnItem)
    (hpast : mdnPastBoundary td c it) :
    ∀ (xs ys : List MdnItem) (seen : List String),
      mdnProcessItems td c (xs ++ it :: ys) seen =
        mdnProcessItems td c (xs ++ [it]) seen := by
  intro xs
  induction xs with
  | nil =>
    intro ys seen
    obtain ⟨ts, hts, hcond⟩ := hpast
    cases c with
    | none =>
      have hc : naiveDay ts < td := hcond
      simp [mdnProcessItems, hts, hc]
    | some cc =>
      have hc : ts < cc := hcond
      simp [mdnProcessItems, hts, hc]
  | cons x rest ih =>
    intro ys seen
    cases hx : x.datePublished with
    | none =>
      simp only [List.cons_append, mdnProcessItems, hx]
      exact ih ys seen
    | some ts =>
      simp only [List.cons_append, mdnProcessItems, hx, List.append_eq, ih]

/-! ## C3 (amended) -/

/-- C3 (amended): CNYES's `parse_news_items` evaluates every remaining
item of the page after a past-boundary item (page processing distributes
over the item list, so a matching item after an older one is still
collected), whereas MoneyUDN's `_collect_candidates_from_pages` `break`s
at the first past-boundary item and never examines the remainder of that
page. -/
theorem scan_full_page_before_stop :
    (∀ (xs ys : List CnyesItem) (d : Int) (c : Option Int),
      cnyesParseNewsItems (xs ++ ys) d c =
        ((cnyesParseNewsItems xs d c).1 ++ (cnyesParseNewsItems ys d c).1,
         ((cnyesParseNewsItems xs d c).2 || (cnyesParseNewsItems ys d c).2))) ∧
    (∀ (td : Int) (c : Option Int) (it : MdnItem), mdnPastBoundary td c it →
      ∀ (xs ys : List MdnItem) (seen : List String),
        mdnProcessItems td c (xs ++ it :: ys) seen =
          mdnProcessItems td c (xs ++ [it]) seen) :=
  ⟨cnyesParse_append, mdnProcessItems_break⟩

/-- Witness for `scan_full_page_before_stop`, at a concrete CNYES page
split and a concrete past-boundary MoneyUDN item. -/
theorem scan_full_page_before_stop_witness :
    cnyesParseNewsItems
        ([⟨some (-86400), 1, "", "", [], ""⟩] ++ [⟨some 0, 2, "", "", [], ""⟩])
        0 none =
      ((cnyesParseNewsItems [⟨some (-86400), 1, "", "", [], ""⟩] 0 none).1 ++
        (cnyesParseNewsItems [⟨some 0, 2, "", "", [], ""⟩] 0 none).1,
       ((cnyesParseNewsItems [⟨some (-86400), 1, "", "", [], ""⟩] 0 none).2 ||
        (cnyesParseNewsItems [⟨some 0, 2, "", "", [], ""⟩] 0 none).2)) ∧
    mdnProcessItems 1 none
        ([] ++ (⟨some 0, "/a", "x", "", "au"⟩ : MdnItem) ::
          [⟨some 86410, "/b", "y", "", "au"⟩]) [] =
      mdnProcessItems 1 none ([] ++ [⟨some 0, "/a", "x", "", "au"⟩]) [] :=
  ⟨scan_full_page_before_stop.1 _ _ 0 none,
   scan_full_page_before_stop.2 1 none _ ⟨0, rfl, by decide⟩ [] _ []⟩

/-! ## C6 (amended) -/

/-- An entry of a PTT listing kept conservatively includes its candidate
record whatever cutoff mode is active, as long as its date is missing or
unparseable. -/
theorem pttParseList_conservative (td : Int) (cd : Option Int)
    (e : PttEntry) (hl : e.hasLink = true)
    (hd : e.listDate = none ∨ e.listDate = some none) :
    ∀ entries, e ∈ entries → pttCandOf e ∈ (pttParseList entries td cd).1 := by
  intro entries
  induction entries with
  | nil => intro h; exact absurd h (List.not_mem_nil e)
  | cons a rest ih =>
    intro hmem
    rcases List.mem_cons.mp hmem with rfl | hmem'
    · simp only [pttParseList, hl, if_true]
      rcases hd with h | h <;> rw [h] <;> exact List.mem_cons_self _ _
    · have hr := ih hmem'
      simp only [pttParseList]
      cases hla : a.hasLink
      · simpa using hr
      · simp only [if_true]
        cases hld : a.listDate with
        | none => simp [hr]
        | some o =>
          cases o with
          | none => simp [hr]
          | some dd =>
            cases cd with
            | some cdd => by_cases h : cdd ≤ dd <;> simp [h, hr]
            | none =>
              by_cases h1 : dd = td
              · simp [h1, hr]
              · by_cases h2 : dd < td <;> simp [h1, h2, hr]

/-- C6 (amended): PTT's `parse_list_articles` conservatively includes a
listing item whose date is missing or unparseable; CNYES's
`parse_news_items` and MoneyUDN's `_collect_candidates_from_pages`
instead skip an item without a parseable timestamp, in both cutoff
modes. -/
theorem unparseable_timestamp_policy :
    (∀ (entries : List PttEntry) (td : Int) (cd : Option Int) (e : PttEntry),
      e ∈ entries → e.hasLink = true →
      (e.listDate = none ∨ e.listDate = some none) →
      pttCandOf e ∈ (pttParseList entries td cd).1) ∧
    (∀ (it : CnyesItem) (ys : List CnyesItem) (d : Int) (c : Option Int),
      it.publishAt = none →
      cnyesParseNewsItems (it :: ys) d c = cnyesParseNewsItems ys d c) ∧
    (∀ (it : MdnItem) (ys : List MdnItem) (td : Int) (c : Option Int)
      (seen : List String), it.datePublished = none →
      mdnProcessItems td c (it :: ys) seen = mdnProcessItems td c ys seen) := by
  refine ⟨fun entries td cd e hmem hl hd =>
    pttParseList_conservative td cd e hl hd entries hmem, ?_, ?_⟩
  · intro it ys d c h
    simp [cnyesParseNewsItems, h]
  · intro it ys td c seen h
    simp [mdnProcessItems, h]

/-- Witness for `unparseable_timestamp_policy`, at a dateless PTT entry, a
CNYES item without `publishAt` and a MoneyUDN item with an unparseable
`datePublished`. -/
theorem unparseable_timestamp_policy_witness :
    pttCandOf ⟨true, "/x", "t", "a", some none⟩ ∈
      (pttParseList [⟨true, "/x", "t", "a", some none⟩] 0 none).1 ∧
    cnyesParseNewsItems [⟨none, 9, "a", "t", [], "c"⟩] 0 none =
      cnyesParseNewsItems [] 0 none ∧
    mdnProcessItems 0 none [⟨none, "/a", "x", "", "au"⟩] [] =
      mdnProcessItems 0 none [] [] :=
  ⟨unparseable_timestamp_policy.1 _ 0 none _ (by decide) rfl (Or.inr rfl),
   unparseable_timestamp_policy.2.1 _ [] 0 none rfl,
   unparseable_timestamp_policy.2.2 _ [] 0 none [] rfl⟩

/-! ## C1 (amended): MoneyUDN URL dedup invariant -/

/-- Invariants of the MoneyUDN per-page loop: the `seen_urls` set only
grows, every candidate the page contributes has a URL fresh relative to
the incoming set and registered in the outgoing one, and the contributed
candidates are mutually distinct by URL. -/
theorem mdnProcessItems_inv (td : Int) (c : Option Int) :
    ∀ (items : List MdnItem) (seen : List String),
      seen ⊆ (mdnProcessItems td c items seen).2.1 ∧
      (∀ cand ∈ (mdnProcessItems td c items seen).1,
        cand.url ∈ (mdnProcessItems td c items seen).2.1 ∧
        cand.url ∉ seen) ∧
      ((mdnProcessItems td c items seen).1.map (fun cand => cand.url)).Nodup := by
  intro items
  induction items with
  | nil => intro seen; simp [mdnProcessItems]
  | cons it rest ih =>
    intro seen
    cases hdp : it.datePublished with
    | none => simpa [mdnProcessItems, hdp] using ih seen
    | some ts =>
      have fresh :
          ∀ hu : ¬it.url = "", ∀ hin : buildFullUrl it.url ∉ seen,
          seen ⊆ (mdnProcessItems td c rest (buildFullUrl it.url :: seen)).2.1 ∧
          (∀ cand ∈ mdnCandOf it ts ::
              (mdnProcessItems td c rest (buildFullUrl it.url :: seen)).1,
            cand.url ∈ (mdnProcessItems td c rest (buildFullUrl it.url :: seen)).2.1 ∧
            cand.url ∉ seen) ∧
          ((mdnCandOf it ts ::
              (mdnProcessItems td c rest (buildFullUrl it.url :: seen)).1).map
              (fun cand => cand.url)).Nodup := by
        intro hu hin
        have h := ih (buildFullUrl it.url :: seen)
        refine ⟨Trans.trans (List.subset_cons_self _ seen) h.1, ?_, ?_⟩
        · intro cand hc
          rcases List.mem_cons.mp hc with rfl | hc'
          · exact ⟨h.1 (List.mem_cons_self _ _), hin⟩
          · exact ⟨(h.2.1 cand hc').1,
              fun hs => (h.2.1 cand hc').2 (List.mem_cons_of_mem _ hs)⟩
        · rw [List.map_cons]
          refine List.Nodup.cons ?_ h.2.2
          intro hmem
          obtain ⟨cand, hc, hurl⟩ := List.mem_map.mp hmem
          exact (h.2.1 cand hc).2 (hurl ▸ List.mem_cons_self _ _)
      cases c with
      | some cc =>
        by_cases hlt : ts < cc
        · simp [mdnProcessItems, hdp, hlt]
        · by_cases hu : it.url = ""
          · simpa [mdnProcessItems, hdp, hlt, hu] using ih seen
          · by_cases hin : buildFullUrl it.url ∈ seen
            · simpa [mdnProcessItems, hdp, hlt, hu, hin] using ih seen
            · simpa [mdnProcessItems, hdp, hlt, hu, hin] using fresh hu hin
      | none =>
        by_cases hlt : naiveDay ts < td
        · simp [mdnProcessItems, hdp, hlt]
        · by_cases hne : naiveDay ts ≠ td
          · simpa [mdnProcessItems, hdp, hlt, hne] using ih seen
          · by_cases hu : it.url = ""
            · simpa [mdnProcessItems, hdp, hlt, hne, hu] using ih seen
            · by_cases hin : buildFullUrl it.url ∈ seen
              · simpa [mdnProcessItems, hdp, hlt, hne, hu, hin] using ih seen
              · simpa [mdnProcessItems, hdp, hlt, hne, hu, hin] using fresh hu hin

/-- Across pages, the MoneyUDN listing loop yields candidates with
mutually distinct URLs, none of which lies in the incoming seen set. -/
theorem mdnLoop_nodup (fetch : Nat → Option (List MdnItem)) (td : Int)
    (c : Option Int) :
    ∀ (fuel page : Nat) (seen : List String),
      ((mdnLoop fetch td c fuel page seen).map (fun cand => cand.url)).Nodup ∧
      ∀ cand ∈ mdnLoop fetch td c fuel page seen, cand.url ∉ seen := by
  intro fuel
  induction fuel with
  | zero => intro page seen; simp [mdnLoop]
  | succ n ih =>
    intro page seen
    cases hf : fetch page with
    | none => simp [mdnLoop, hf]
    | some items =>
      by_cases he : items.isEmpty
      · simp [mdnLoop, hf, he]
      · have he' : items.isEmpty = false := by simpa using he
        have hinv := mdnProcessItems_inv td c items seen
        by_cases hflag : (mdnProcessItems td c items seen).2.2
        · simp only [mdnLoop, hf, he', hflag, Bool.false_eq_true, if_false,
            if_true]
          exact ⟨hinv.2.2, fun cand hc => (hinv.2.1 cand hc).2⟩
        · have hflag' : (mdnProcessItems td c items seen).2.2 = false := by
            simpa using hflag
          have hl := ih (page + 1) (mdnProcessItems td c items seen).2.1
          simp only [mdnLoop, hf, he', hflag', Bool.false_eq_true, if_false]
          constructor
          · rw [List.map_append]
            rw [List.nodup_append]
            refine ⟨hinv.2.2, hl.1, ?_⟩
            intro u hu1 hu2
            obtain ⟨cand, hc, rfl⟩ := List.mem_map.mp hu1
            obtain ⟨cand', hc', hurl⟩ := List.mem_map.mp hu2
            exact (hl.2 cand' hc') (hurl ▸ (hinv.2.1 cand hc).1)
          · intro cand hc
            rcases List.mem_append.mp hc with hc' | hc'
            · exact (hinv.2.1 cand hc').2
            · exact fun hs => (hl.2 cand hc') (hinv.1 hs)

/-- Enrichment keeps a sub-sequence of the candidates' URLs: a failed
article fetch drops its candidate, nothing is added. -/
theorem mdnEnrich_sublist (content : String → Option String) :
    ∀ cands : List MdnCand,
      ((mdnEnrich content cands).map (fun r => r.url)).Sublist
        (cands.map (fun cand => cand.url)) := by
  intro cands
  induction cands with
  | nil => simp [mdnEnrich]
  | cons c rest ih =>
    cases hc : content c.url with
    | none =>
      simp only [mdnEnrich, hc, List.map_cons]
      exact ih.cons c.url
    | some body =>
      simp only [mdnEnrich, hc, List.map_cons]
      exact ih.cons₂ c.url

/-- MoneyUDN half of the dedup invariant: a completed
`moneyudn_news_crawler` invocation returns no two rows with the same
`url` — the running `seen_urls` set deduplicates across pages, and
enrichment only drops candidates. -/
theorem mdn_crawl_dedup (fetch : Nat → Option (List MdnItem))
    (content : String → Option String) (targetDay : Int)
    (cutoff : Option Int) :
    ((mdnCrawler fetch content targetDay cutoff).map (fun r => r.url)).Nodup := by
  have hcol : ((mdnCollect fetch targetDay cutoff).map
      (fun cand => cand.url)).Nodup :=
    (mdnLoop_nodup fetch targetDay cutoff mdnMaxPages 1 []).1
  have hsub := mdnEnrich_sublist content (mdnCollect fetch targetDay cutoff)
  have hen := List.Nodup.sublist hsub hcol
  rw [mdnCrawler, List.map_map]
  exact hen

/-- Shape of one step of the CTEE API merge loop on an unseen URL whose
article fetch succeeds: the step either contributes nothing (hours-mode
skip) or one row carrying that URL, and in both cases continues with the
URL marked seen. -/
theorem cteeMergeApi_cons_shape (fetchC : String → Option CteeExtra)
    (nc : Option Int) (a : CteeApiArt) (rest : List CteeApiArt)
    (seen : List String) (hin : a.url ∉ seen) (ex : CteeExtra)
    (hfc : fetchC a.url = some ex) :
    cteeMergeApi fetchC nc (a :: rest) seen =
      cteeMergeApi fetchC nc rest (a.url :: seen) ∨
    ∃ row : CteeRow,
      cteeMergeApi fetchC nc (a :: rest) seen =
        (row :: (cteeMergeApi fetchC nc rest (a.url :: seen)).1,
         (cteeMergeApi fetchC nc rest (a.url :: seen)).2) ∧
      row.url = a.url := by
  simp only [cteeMergeApi, hfc]
  rw [if_neg hin]
  repeat' first
    | (left; rfl)
    | (right; exact ⟨_, rfl, rfl⟩)
    | split

/-- Shape of one step of the CTEE HTML merge loop on an unseen URL whose
article fetch succeeds. -/
theorem cteeMergeHtml_cons_shape (fetchC : String → Option CteeExtra)
    (nc : Option Int) (td : Int) (c : CteeHtmlCand)
    (rest : List CteeHtmlCand) (seen : List String) (hin : c.url ∉ seen)
    (ex : CteeExtra) (hfc : fetchC c.url = some ex) :
    cteeMergeHtml fetchC nc td (c :: rest) seen =
      cteeMergeHtml fetchC nc td rest (c.url :: seen) ∨
    ∃ row : CteeRow,
      cteeMergeHtml fetchC nc td (c :: rest) seen =
        (row :: (cteeMergeHtml fetchC nc td rest (c.url :: seen)).1,
         (cteeMergeHtml fetchC nc td rest (c.url :: seen)).2) ∧
      row.url = c.url := by
  simp only [cteeMergeHtml, hfc]
  rw [if_neg hin]
  repeat' first
    | (left; rfl)
    | (right; exact ⟨_, rfl, rfl⟩)
    | split

/-- Invariants of the CTEE API merge loop: the `all_urls` set only grows,
every contributed row's URL is fresh relative to the incoming set and
registered in the outgoing one, and the contributed rows are mutually
distinct by URL. -/
theorem cteeMergeApi_inv (fetchC : String → Option CteeExtra)
    (nc : Option Int) :
    ∀ (arts : List CteeApiArt) (seen : List String),
      seen ⊆ (cteeMergeApi fetchC nc arts seen).2 ∧
      (∀ r ∈ (cteeMergeApi fetchC nc arts seen).1,
        r.url ∈ (cteeMergeApi fetchC nc arts seen).2 ∧ r.url ∉ seen) ∧
      ((cteeMergeApi fetchC nc arts seen).1.map (fun r => r.url)).Nodup := by
  intro arts
  induction arts with
  | nil => intro seen; simp [cteeMergeApi]
  | cons a rest ih =>
    intro seen
    by_cases hin : a.url ∈ seen
    · simpa [cteeMergeApi, hin] using ih seen
    · have h := ih (a.url :: seen)
      have hskip :
          seen ⊆ (cteeMergeApi fetchC nc rest (a.url :: seen)).2 ∧
          (∀ r ∈ (cteeMergeApi fetchC nc rest (a.url :: seen)).1,
            r.url ∈ (cteeMergeApi fetchC nc rest (a.url :: seen)).2 ∧
            r.url ∉ seen) ∧
          ((cteeMergeApi fetchC nc rest (a.url :: seen)).1.map
            (fun r => r.url)).Nodup :=
        ⟨Trans.trans (List.subset_cons_self _ _) h.1,
         fun r hr => ⟨(h.2.1 r hr).1,
           fun hs => (h.2.1 r hr).2 (List.mem_cons_of_mem _ hs)⟩,
         h.2.2⟩
      cases hfc : fetchC a.url with
      | none =>
        have heq : cteeMergeApi fetchC nc (a :: rest) seen =
            cteeMergeApi fetchC nc rest (a.url :: seen) := by
          simp [cteeMergeApi, hin, hfc]
        rw [heq]
        exact hskip
      | some ex =>
        rcases cteeMergeApi_cons_shape fetchC nc a rest seen hin ex hfc with
          heq | ⟨row, heq, hrow⟩
        · rw [heq]
          exact hskip
        · rw [heq]
          refine ⟨Trans.trans (List.subset_cons_self _ _) h.1, ?_, ?_⟩
          · intro r hr
            rcases List.mem_cons.mp hr with rfl | hr'
            · rw [hrow]
              exact ⟨h.1 (List.mem_cons_self _ _), hin⟩
            · exact ⟨(h.2.1 r hr').1,
                fun hs => (h.2.1 r hr').2 (List.mem_cons_of_mem _ hs)⟩
          · rw [List.map_cons, hrow]
            refine List.Nodup.cons ?_ h.2.2
            intro hmem
            obtain ⟨r, hr, hurl⟩ := List.mem_map.mp hmem
            refine (h.2.1 r hr).2 ?_
            rw [hurl]
            exact List.mem_cons_self _ _

/-- Invariants of the CTEE HTML merge loop, mirroring
`cteeMergeApi_inv`. -/
theorem cteeMergeHtml_inv (fetchC : String → Option CteeExtra)
    (nc : Option Int) (td : Int) :
    ∀ (cands : List CteeHtmlCand) (seen : List String),
      seen ⊆ (cteeMergeHtml fetchC nc td cands seen).2 ∧
      (∀ r ∈ (cteeMergeHtml fetchC nc td cands seen).1,
        r.url ∈ (cteeMergeHtml fetchC nc td cands seen).2 ∧ r.url ∉ seen) ∧
      ((cteeMergeHtml fetchC nc td cands seen).1.map (fun r => r.url)).Nodup := by
  intro cands
  induction cands with
  | nil => intro seen; simp [cteeMergeHtml]
  | cons c rest ih =>
    intro seen
    by_cases hin : c.url ∈ seen
    · simpa [cteeMergeHtml, hin] using ih seen
    · have h := ih (c.url :: seen)
      have hskip :
          seen ⊆ (cteeMergeHtml fetchC nc td rest (c.url :: seen)).2 ∧
          (∀ r ∈ (cteeMergeHtml fetchC nc td rest (c.url :: seen)).1,
            r.url ∈ (cteeMergeHtml fetchC nc td rest (c.url :: seen)).2 ∧
            r.url ∉ seen) ∧
          ((cteeMergeHtml fetchC nc td rest (c.url :: seen)).1.map
            (fun r => r.url)).Nodup :=
        ⟨Trans.trans (List.subset_cons_self _ _) h.1,
         fun r hr => ⟨(h.2.1 r hr).1,
           fun hs => (h.2.1 r hr).2 (List.mem_cons_of_mem _ hs)⟩,
         h.2.2⟩
      cases hfc : fetchC c.url with
      | none =>
        have heq : cteeMergeHtml fetchC nc td (c :: rest) seen =
            cteeMergeHtml fetchC nc td rest (c.url :: seen) := by
          simp [cteeMergeHtml, hin, hfc]
        rw [heq]
        exact hskip
      | some ex =>
        rcases cteeMergeHtml_cons_shape fetchC nc td c rest seen hin ex hfc with
          heq | ⟨row, heq, hrow⟩
        · rw [heq]
          exact hskip
        · rw [heq]
          refine ⟨Trans.trans (List.subset_cons_self _ _) h.1, ?_, ?_⟩
          · intro r hr
            rcases List.mem_cons.mp hr with rfl | hr'
            · rw [hrow]
              exact ⟨h.1 (List.mem_cons_self _ _), hin⟩
            · exact ⟨(h.2.1 r hr').1,
                fun hs => (h.2.1 r hr').2 (List.mem_cons_of_mem _ hs)⟩
          · rw [List.map_cons, hrow]
            refine List.Nodup.cons ?_ h.2.2
            intro hmem
            obtain ⟨r, hr, hurl⟩ := List.mem_map.mp hmem
            refine (h.2.1 r hr).2 ?_
            rw [hurl]
            exact List.mem_cons_self _ _

/-- CTEE half of the dedup invariant: the result assembly of
`ctee_news_crawler` yields no two rows with the same `url` — both merge
loops run against the shared `all_urls` set. -/
theorem ctee_crawl_dedup (fetchC : String → Option CteeExtra)
    (naiveCutoff : Option Int) (targetDay : Int)
    (apiArts : List CteeApiArt) (htmlCands : List CteeHtmlCand) :
    ((cteeCrawlerMerge fetchC naiveCutoff targetDay apiArts htmlCands).map
      (fun r => r.url)).Nodup := by
  have h1 := cteeMergeApi_inv fetchC naiveCutoff apiArts []
  have h2 := cteeMergeHtml_inv fetchC naiveCutoff targetDay htmlCands
    (cteeMergeApi fetchC naiveCutoff apiArts []).2
  have hcomb :
      (((cteeMergeApi fetchC naiveCutoff apiArts []).1 ++
        (cteeMergeHtml fetchC naiveCutoff targetDay htmlCands
          (cteeMergeApi fetchC naiveCutoff apiArts []).2).1).map
        (fun r => r.url)).Nodup := by
    rw [List.map_append, List.nodup_append]
    refine ⟨h1.2.2, h2.2.2, ?_⟩
    intro u hu1 hu2
    obtain ⟨r, hr, rfl⟩ := List.mem_map.mp hu1
    obtain ⟨r', hr', hurl⟩ := List.mem_map.mp hu2
    exact (h2.2.1 r' hr').2 (hurl ▸ (h1.2.1 r hr).1)
  rw [cteeCrawlerMerge, List.map_map]
  exact hcomb

/-- C1 (amended): the crawlers that keep a seen-URL set —
`moneyudn_news_crawler` (`seen_urls`) and `ctee_news_crawler`
(`all_urls`) — return no two rows with the same `url`, even when the same
item appears on multiple listing pages; `ptt_news_crawler` keeps no such
set, and a concrete board repeating one article across two listing pages
returns its URL twice (`cnyes_news_crawler` likewise, see the
counterexample). -/
theorem url_dedup_invariant :
    (∀ (fetch : Nat → Option (List MdnItem))
      (content : String → Option String) (targetDay : Int)
      (cutoff : Option Int),
      ((mdnCrawler fetch content targetDay cutoff).map
        (fun r => r.url)).Nodup) ∧
    (∀ (fetchC : String → Option CteeExtra) (naiveCutoff : Option Int)
      (targetDay : Int) (apiArts : List CteeApiArt)
      (htmlCands : List CteeHtmlCand),
      ((cteeCrawlerMerge fetchC naiveCutoff targetDay apiArts htmlCands).map
        (fun r => r.url)).Nodup) ∧
    (((pttCrawler
        [some [⟨true, "/dup", "t", "a", some (some 0)⟩],
         some [⟨true, "/dup", "t", "a", some (some 0)⟩]]
        (fun _ => some ⟨some 0, "b"⟩) 0 none).map (fun r => r.url)) =
      [pttBaseUrl ++ "/dup", pttBaseUrl ++ "/dup"] ∧
     ¬ ((pttCrawler
        [some [⟨true, "/dup", "t", "a", some (some 0)⟩],
         some [⟨true, "/dup", "t", "a", some (some 0)⟩]]
        (fun _ => some ⟨some 0, "b"⟩) 0 none).map (fun r => r.url)).Nodup) :=
  ⟨mdn_crawl_dedup, ctee_crawl_dedup, by decide, by decide⟩

/-! ## Page-level characterizations for the scan theorems -/

/-- Decidable test for a CNYES item being dated strictly before the
date-mode target: exactly the condition that sets `found_older`. -/
def cnyesItemOlder (it : CnyesItem) (d : Int) : Bool :=
  match it.publishAt with
  | some ts => decide (twDay ts < d)
  | none => false

/-- A CNYES page contains an item dated strictly earlier than the
target. -/
def cnyesPageHasOlder (p : CnyesApiPage) (d : Int) : Prop :=
  ∃ it ∈ p.data, cnyesItemOlder it d = true

instance (p : CnyesApiPage) (d : Int) : Decidable (cnyesPageHasOlder p d) :=
  decidable_of_iff (∃ it ∈ p.data, cnyesItemOlder it d = true) Iff.rfl

/-- Page `i` was fetched successfully, was non-empty, and raised no
`found_older` flag — the scan continues past it. -/
def cnyesScanPageOk (fetch : Nat → Option CnyesApiPage) (d : Int)
    (c : Option Int) (i : Nat) : Prop :=
  ∃ p, fetch i = some p ∧ p.data ≠ [] ∧
    (cnyesParseNewsItems p.data d c).2 = false

/-- Rows the parser extracts from the page at number `i` (empty when the
fetch fails). -/
def cnyesPageRows (fetch : Nat → Option CnyesApiPage) (d : Int)
    (c : Option Int) (i : Nat) : List CnyesRow :=
  match fetch i with
  | some p => (cnyesParseNewsItems p.data d c).1
  | none => []

/-- Concatenated rows of the `m` consecutive pages starting at `start`. -/
def cnyesRowsUpTo (fetch : Nat → Option CnyesApiPage) (d : Int)
    (c : Option Int) (start m : Nat) : List CnyesRow :=
  ((List.range' start m).map (cnyesPageRows fetch d c)).flatten

/-- In date mode the `found_older` flag of a page is exactly "some item of
the page is dated strictly before the target". -/
theorem cnyesParse_older_eq_any (items : List CnyesItem) (d : Int) :
    (cnyesParseNewsItems items d none).2 =
      items.any (fun it => cnyesItemOlder it d) := by
  induction items with
  | nil => rfl
  | cons it rest ih =>
    cases hpa : it.publishAt with
    | none => simp [cnyesParseNewsItems, cnyesItemOlder, hpa, ih]
    | some ts =>
      by_cases h1 : twDay ts = d
      · have h2 : ¬twDay ts < d := by omega
        simp [cnyesParseNewsItems, cnyesItemOlder, hpa, h1, h2, ih]
      · by_cases h2 : twDay ts < d
        · simp [cnyesParseNewsItems, cnyesItemOlder, hpa, h1, h2, ih]
        · simp [cnyesParseNewsItems, cnyesItemOlder, hpa, h1, h2, ih]

/-- Decidable test for a PTT entry being a boundary item in date mode:
linked, with a parsed listing date strictly before the target. -/
def pttEntryOlder (e : PttEntry) (d : Int) : Bool :=
  e.hasLink &&
    match e.listDate with
    | some (some dd) => decide (dd < d)
    | _ => false

/-- A PTT listing page contains a boundary item. -/
def pttPageHasOlder (pg : List PttEntry) (d : Int) : Prop :=
  ∃ e ∈ pg, pttEntryOlder e d = true

instance (pg : List PttEntry) (d : Int) : Decidable (pttPageHasOlder pg d) :=
  decidable_of_iff (∃ e ∈ pg, pttEntryOlder e d = true) Iff.rfl

/-- In date mode the `found_older` flag of a PTT listing page is exactly
"some linked entry is dated strictly before the target". -/
theorem pttParse_older_eq_any (entries : List PttEntry) (d : Int) :
    (pttParseList entries d none).2 =
      entries.any (fun e => pttEntryOlder e d) := by
  induction entries with
  | nil => rfl
  | cons a rest ih =>
    cases hla : a.hasLink
    · simp [pttParseList, pttEntryOlder, hla, ih]
    · cases hld : a.listDate with
      | none => simp [pttParseList, pttEntryOlder, hla, hld, ih]
      | some o =>
        cases o with
        | none => simp [pttParseList, pttEntryOlder, hla, hld, ih]
        | some dd =>
          by_cases h1 : dd = d
          · have h2 : ¬dd < d := by omega
            simp [pttParseList, pttEntryOlder, hla, hld, h1, h2, ih]
          · by_cases h2 : dd < d <;>
              simp [pttParseList, pttEntryOlder, hla, hld, h1, h2, ih]

/-! ## Decomposition of the CNYES page loop -/

/-- A run of `ok` pages contributes its rows and page numbers in order,
and the loop continues beyond the run unchanged. -/
theorem cnyesScanFrom_ok_run (fetch : Nat → Option CnyesApiPage) (d : Int)
    (c : Option Int) :
    ∀ (m fuel page : Nat), m ≤ fuel →
      (∀ i, page ≤ i → i < page + m → cnyesScanPageOk fetch d c i) →
      cnyesScanFrom fetch d c fuel page =
        (cnyesRowsUpTo fetch d c page m ++
          (cnyesScanFrom fetch d c (fuel - m) (page + m)).1,
         List.range' page m ++
          (cnyesScanFrom fetch d c (fuel - m) (page + m)).2) := by
  intro m
  induction m with
  | zero =>
    intro fuel page _ _
    simp [cnyesRowsUpTo]
  | succ n ih =>
    intro fuel page hm hok
    obtain ⟨f, rfl⟩ : ∃ f, fuel = f + 1 := ⟨fuel - 1, by omega⟩
    obtain ⟨p, hp, hne, hflag⟩ := hok page le_rfl (by omega)
    have hne' : p.data.isEmpty = false := by
      cases hdata : p.data with
      | nil => exact absurd hdata hne
      | cons _ _ => rfl
    have hrec := ih f (page + 1) (by omega)
      (fun i h1 h2 => hok i (by omega) (by omega))
    have e1 : f + 1 - (n + 1) = f - n := by omega
    have e2 : page + (n + 1) = page + 1 + n := by omega
    have e3 : cnyesRowsUpTo fetch d c page (n + 1) =
        (cnyesParseNewsItems p.data d c).1 ++
          cnyesRowsUpTo fetch d c (page + 1) n := by
      simp [cnyesRowsUpTo, List.range'_succ, cnyesPageRows, hp]
    simp only [cnyesScanFrom, hp, hne', Bool.false_eq_true, if_false, hflag,
      hrec, e1, e2, e3, List.range'_succ, List.cons_append,
      List.append_assoc]

/-- A failed fetch ends the loop at once with no rows from that page. -/
theorem cnyesScanFrom_error (fetch : Nat → Option CnyesApiPage) (d : Int)
    (c : Option Int) (fuel page : Nat) (hf : fuel ≠ 0)
    (h : fetch page = none) :
    cnyesScanFrom fetch d c fuel page = ([], [page]) := by
  obtain ⟨f, rfl⟩ : ∃ f, fuel = f + 1 := ⟨fuel - 1, by omega⟩
  simp [cnyesScanFrom, h]

/-- A page raising the `found_older` flag ends the loop after
contributing its own matches. -/
theorem cnyesScanFrom_older (fetch : Nat → Option CnyesApiPage) (d : Int)
    (c : Option Int) (fuel page : Nat) (p : CnyesApiPage) (hf : fuel ≠ 0)
    (hp : fetch page = some p) (hne : p.data ≠ [])
    (hflag : (cnyesParseNewsItems p.data d c).2 = true) :
    cnyesScanFrom fetch d c fuel page =
      ((cnyesParseNewsItems p.data d c).1, [page]) := by
  obtain ⟨f, rfl⟩ : ∃ f, fuel = f + 1 := ⟨fuel - 1, by omega⟩
  have hne' : p.data.isEmpty = false := by
    cases hdata : p.data with
    | nil => exact absurd hdata hne
    | cons _ _ => rfl
  simp [cnyesScanFrom, hp, hne', hflag]

/-- Unfolding of the crawler loop when page 1 is fetched, non-empty and
raises no flag: its rows come first and pages 2..`last_page` follow. -/
theorem cnyesCrawlerScan_ok_first (fetch : Nat → Option CnyesApiPage)
    (d : Int) (c : Option Int) (p1 : CnyesApiPage) (hp1 : fetch 1 = some p1)
    (hne : p1.data ≠ []) (hflag : (cnyesParseNewsItems p1.data d c).2 = false) :
    cnyesCrawlerScan fetch d c =
      ((cnyesParseNewsItems p1.data d c).1 ++
        (cnyesScanFrom fetch d c (p1.lastPage - 1) 2).1,
       1 :: (cnyesScanFrom fetch d c (p1.lastPage - 1) 2).2) := by
  have hne' : p1.data.isEmpty = false := by
    cases hdata : p1.data with
    | nil => exact absurd hdata hne
    | cons _ _ => rfl
  simp [cnyesCrawlerScan, hp1, hne', hflag]

/-- Arithmetic shape of the fetched-page list: page 1, the run 2..j−1, and
the terminal page j form the contiguous range 1..j. -/
theorem range_assemble (j : Nat) (hj : 2 ≤ j) :
    1 :: (List.range' 2 (j - 2) ++ [2 + (j - 2)]) = List.range' 1 j := by
  have h1 : List.range' 2 (j - 2) ++ List.range' (2 + (j - 2)) 1 =
      List.range' 2 (1 + (j - 2)) := List.range'_append_1 2 (j - 2) 1
  calc 1 :: (List.range' 2 (j - 2) ++ [2 + (j - 2)])
      = List.range' 1 1 ++
          (List.range' 2 (j - 2) ++ List.range' (2 + (j - 2)) 1) := rfl
    _ = List.range' 1 1 ++ List.range' 2 (1 + (j - 2)) := by rw [h1]
    _ = List.range' 1 (1 + (j - 2) + 1) := List.range'_append_1 1 1 (1 + (j - 2))
    _ = List.range' 1 j := by congr 1; omega

/-- Date-mode boundary stop of the CNYES crawler, flag form: if pages
1..j−1 are fetched and raise no flag, page j is reachable and flagged,
then the pages fetched are exactly 1..j. -/
theorem cnyes_boundary_stop_aux (fetch : Nat → Option CnyesApiPage)
    (d : Int) (c : Option Int) (j : Nat) (hj : 1 ≤ j)
    (hgood : ∀ i, 1 ≤ i → i < j → cnyesScanPageOk fetch d c i)
    (hlast : j = 1 ∨ ∃ p, fetch 1 = some p ∧ j ≤ p.lastPage)
    (holder : ∃ p, fetch j = some p ∧ p.data ≠ [] ∧
      (cnyesParseNewsItems p.data d c).2 = true) :
    (cnyesCrawlerScan fetch d c).2 = List.range' 1 j := by
  by_cases hj1 : j = 1
  · subst hj1
    obtain ⟨p, hp, hne, hflag⟩ := holder
    have hne' : p.data.isEmpty = false := by
      cases hdata : p.data with
      | nil => exact absurd hdata hne
      | cons _ _ => rfl
    simp [cnyesCrawlerScan, hp, hne', hflag, List.range']
  · have hj2 : 2 ≤ j := by omega
    obtain ⟨pl, hpl, hjle⟩ := hlast.resolve_left hj1
    obtain ⟨p1, hp1, hne1, hflag1⟩ := hgood 1 le_rfl (by omega)
    have hpp : pl = p1 := by
      rw [hpl] at hp1
      exact Option.some.inj hp1
    subst hpp
    rw [cnyesCrawlerScan_ok_first fetch d c pl hpl hne1 hflag1]
    have hrun := cnyesScanFrom_ok_run fetch d c (j - 2) (pl.lastPage - 1) 2
      (by omega) (fun i h1 h2 => hgood i (by omega) (by omega))
    obtain ⟨pj, hpj, hnej, hflagj⟩ := holder
    have e2 : 2 + (j - 2) = j := by omega
    have hterm := cnyesScanFrom_older fetch d c (pl.lastPage - 1 - (j - 2))
      (2 + (j - 2)) pj (by omega) (by rw [e2]; exact hpj) hnej hflagj
    rw [hrun, hterm]
    exact range_assemble j hj2

/-- Partial-failure shape of the CNYES crawler, flag form: pages 1..k−1
ok, fetch of page k fails, so the rows are exactly those of pages 1..k−1
and the pages fetched are 1..k. -/
theorem cnyes_partial_failure_aux (fetch : Nat → Option CnyesApiPage)
    (d : Int) (c : Option Int) (k : Nat) (hk : 2 ≤ k)
    (hok : ∀ i, 1 ≤ i → i < k → cnyesScanPageOk fetch d c i)
    (hlast : ∃ p, fetch 1 = some p ∧ k ≤ p.lastPage)
    (hfail : fetch k = none) :
    (cnyesCrawlerScan fetch d c).1 = cnyesRowsUpTo fetch d c 1 (k - 1) ∧
    (cnyesCrawlerScan fetch d c).2 = List.range' 1 k := by
  obtain ⟨pl, hpl, hkle⟩ := hlast
  obtain ⟨p1, hp1, hne1, hflag1⟩ := hok 1 le_rfl (by omega)
  have hpp : pl = p1 := by
    rw [hpl] at hp1
    exact Option.some.inj hp1
  subst hpp
  rw [cnyesCrawlerScan_ok_first fetch d c pl hpl hne1 hflag1]
  have hrun := cnyesScanFrom_ok_run fetch d c (k - 2) (pl.lastPage - 1) 2
    (by omega) (fun i h1 h2 => hok i (by omega) (by omega))
  have e2 : 2 + (k - 2) = k := by omega
  have hterm := cnyesScanFrom_error fetch d c (pl.lastPage - 1 - (k - 2))
    (2 + (k - 2)) (by omega) (by rw [e2]; exact hfail)
  rw [hrun, hterm]
  constructor
  · have e3 : cnyesRowsUpTo fetch d c 1 (k - 1) =
        cnyesPageRows fetch d c 1 ++ cnyesRowsUpTo fetch d c 2 (k - 2) := by
      have e4 : k - 1 = k - 2 + 1 := by omega
      rw [e4]
      simp [cnyesRowsUpTo, List.range'_succ]
    rw [e3]
    simp [cnyesPageRows, hpl]
  · simpa using range_assemble k hk

/-- Date-mode boundary stop of the PTT chain scan, flag form. -/
theorem pttScanChain_boundary_aux (d : Int) :
    ∀ (j : Nat) (chain : List (Option (List PttEntry))),
      (∀ i, i < j → ∃ pg, chain.get? i = some (some pg) ∧
        (pttParseList pg d none).2 = false) →
      (∃ pg, chain.get? j = some (some pg) ∧
        (pttParseList pg d none).2 = true) →
      (pttScanChain d none chain).2 = j + 1 := by
  intro j
  induction j with
  | zero =>
    intro chain _ holder
    obtain ⟨pg, hg, hflag⟩ := holder
    cases chain with
    | nil => simp at hg
    | cons c0 rest =>
      have hc0 : c0 = some pg := by simpa using hg
      subst hc0
      simp [pttScanChain, hflag]
  | succ n ih =>
    intro chain hgood holder
    cases chain with
    | nil =>
      obtain ⟨pg, hg, _⟩ := holder
      simp at hg
    | cons c0 rest =>
      obtain ⟨pg0, hg0, hflag0⟩ := hgood 0 (Nat.succ_pos n)
      have hc0 : c0 = some pg0 := by simpa using hg0
      subst hc0
      have hrec := ih rest
        (fun i hi => by simpa using hgood (i + 1) (by omega))
        (by simpa using holder)
      simp [pttScanChain, hflag0, hrec]

/-- Truncation at a failing page: a MoneyUDN listing scan whose fetch
raises at page `k` behaves exactly like the scan limited to the pages
strictly before `k`. -/
theorem mdnLoop_trunc (fetch : Nat → Option (List MdnItem)) (td : Int)
    (c : Option Int) (k : Nat) (hfail : fetch k = none) :
    ∀ (fuel page : Nat) (seen : List String), page ≤ k → k ≤ page + fuel →
      mdnLoop fetch td c fuel page seen =
        mdnLoop fetch td c (k - page) page seen := by
  intro fuel
  induction fuel with
  | zero =>
    intro page seen h1 h2
    have hpk : k = page := by omega
    subst hpk
    simp [Nat.sub_self]
  | succ n ih =>
    intro page seen h1 h2
    by_cases hpk : page = k
    · subst hpk
      simp [mdnLoop, hfail, Nat.sub_self]
    · obtain ⟨m, hm⟩ : ∃ m, k - page = m + 1 := ⟨k - page - 1, by omega⟩
      rw [hm]
      cases hf : fetch page with
      | none => simp [mdnLoop, hf]
      | some items =>
        by_cases he : items.isEmpty
        · simp [mdnLoop, hf, he]
        · have he' : items.isEmpty = false := by simpa using he
          by_cases hflag : (mdnProcessItems td c items seen).2.2
          · simp [mdnLoop, hf, he', hflag]
          · have hflag' : (mdnProcessItems td c items seen).2.2 = false := by
              simpa using hflag
            simp only [mdnLoop, hf, he', hflag', Bool.false_eq_true, if_false]
            congr 1
            have hm' : m = k - (page + 1) := by omega
            rw [hm']
            exact ih (page + 1) (mdnProcessItems td c items seen).2.1
              (by omega) (by omega)

/-! ## C2 -/

/-- C2: in a date-mode scan, once a page carries an item dated strictly
earlier than the target, that page is the last one fetched.  For the CNYES
crawler the pages fetched are exactly 1..j when page j is the first one
with an older item; for the PTT chain scan exactly the first j+1 chain
links are fetched when link j (0-based) is the first with an older
entry. -/
theorem exactdate_boundary_stop :
    (∀ (fetch : Nat → Option CnyesApiPage) (d : Int) (j : Nat), 1 ≤ j →
      (∀ i, 1 ≤ i → i < j →
        ∃ p, fetch i = some p ∧ p.data ≠ [] ∧ ¬cnyesPageHasOlder p d) →
      (j = 1 ∨ ∃ p, fetch 1 = some p ∧ j ≤ p.lastPage) →
      (∃ p, fetch j = some p ∧ p.data ≠ [] ∧ cnyesPageHasOlder p d) →
      (cnyesCrawlerScan fetch d none).2 = List.range' 1 j) ∧
    (∀ (d : Int) (j : Nat) (chain : List (Option (List PttEntry))),
      (∀ i, i < j → ∃ pg, chain.get? i = some (some pg) ∧
        ¬pttPageHasOlder pg d) →
      (∃ pg, chain.get? j = some (some pg) ∧ pttPageHasOlder pg d) →
      (pttScanChain d none chain).2 = j + 1) := by
  have hcny : ∀ (p : CnyesApiPage) (d : Int),
      (cnyesParseNewsItems p.data d none).2 = true ↔ cnyesPageHasOlder p d := by
    intro p d
    rw [cnyesParse_older_eq_any]
    exact List.any_eq_true
  have hptt : ∀ (pg : List PttEntry) (d : Int),
      (pttParseList pg d none).2 = true ↔ pttPageHasOlder pg d := by
    intro pg d
    rw [pttParse_older_eq_any]
    exact List.any_eq_true
  constructor
  · intro fetch d j hj hgood hlast holder
    refine cnyes_boundary_stop_aux fetch d none j hj ?_ hlast ?_
    · intro i h1 h2
      obtain ⟨p, hp, hne, hnold⟩ := hgood i h1 h2
      exact ⟨p, hp, hne, Bool.eq_false_iff.mpr (fun ht => hnold ((hcny p d).mp ht))⟩
    · obtain ⟨p, hp, hne, hold⟩ := holder
      exact ⟨p, hp, hne, (hcny p d).mpr hold⟩
  · intro d j chain hgood holder
    refine pttScanChain_boundary_aux d j chain ?_ ?_
    · intro i hi
      obtain ⟨pg, hg, hnold⟩ := hgood i hi
      exact ⟨pg, hg, Bool.eq_false_iff.mpr (fun ht => hnold ((hptt pg d).mp ht))⟩
    · obtain ⟨pg, hg, hold⟩ := holder
      exact ⟨pg, hg, (hptt pg d).mpr hold⟩

/-- Witness for `exactdate_boundary_stop`: a two-page CNYES board whose
second page holds the older item, and a two-link PTT chain whose second
page holds the older entry. -/
theorem exactdate_boundary_stop_witness :
    (cnyesCrawlerScan
      (fun p =>
        if p = 1 then some ⟨[⟨some 0, 1, "", "", [], ""⟩], 2⟩
        else if p = 2 then some ⟨[⟨some (-86400), 2, "", "", [], ""⟩], 2⟩
        else none) 0 none).2 = List.range' 1 2 ∧
    (pttScanChain 0 none
      [some [⟨true, "/g", "t", "a", some (some 0)⟩],
       some [⟨true, "/o", "t", "a", some (some (-1))⟩]]).2 = 1 + 1 := by
  constructor
  · refine exactdate_boundary_stop.1 _ 0 2 (by decide) ?_
      (Or.inr ⟨⟨[⟨some 0, 1, "", "", [], ""⟩], 2⟩, rfl, by decide⟩)
      ⟨⟨[⟨some (-86400), 2, "", "", [], ""⟩], 2⟩, rfl, by decide, by decide⟩
    intro i h1 h2
    have hi : i = 1 := by omega
    subst hi
    exact ⟨⟨[⟨some 0, 1, "", "", [], ""⟩], 2⟩, rfl, by decide, by decide⟩
  · refine exactdate_boundary_stop.2 0 1 _ ?_
      ⟨[⟨true, "/o", "t", "a", some (some (-1))⟩], rfl, by decide⟩
    intro i hi
    have hi0 : i = 0 := by omega
    subst hi0
    exact ⟨[⟨true, "/g", "t", "a", some (some 0)⟩], rfl, by decide⟩

/-! ## C4 -/

/-- C4: when fetching page k fails after pages 1..k−1 succeeded, the crawl
returns exactly the candidates accumulated from pages 1..k−1 and raises
nothing.  For CNYES the returned table is the per-page rows of pages
1..k−1 (with the final `Time` replacement) and pages 1..k are the ones
attempted; for MoneyUDN the collection equals the scan limited to pages
1..k−1. -/
theorem partial_failure_containment :
    (∀ (fetch : Nat → Option CnyesApiPage) (d : Int) (c : Option Int)
      (k : Nat), 2 ≤ k →
      (∀ i, 1 ≤ i → i < k → cnyesScanPageOk fetch d c i) →
      (∃ p, fetch 1 = some p ∧ k ≤ p.lastPage) →
      fetch k = none →
      cnyesCrawler fetch d c =
        (cnyesRowsUpTo fetch d c 1 (k - 1)).map CnyesRow.toDb ∧
      (cnyesCrawlerScan fetch d c).2 = List.range' 1 k) ∧
    (∀ (fetch : Nat → Option (List MdnItem)) (td : Int) (c : Option Int)
      (k : Nat), 1 ≤ k → k ≤ mdnMaxPages → fetch k = none →
      mdnCollect fetch td c = mdnLoop fetch td c (k - 1) 1 []) := by
  constructor
  · intro fetch d c k hk hok hlast hfail
    have h := cnyes_partial_failure_aux fetch d c k hk hok hlast hfail
    refine ⟨?_, h.2⟩
    rw [cnyesCrawler, h.1]
  · intro fetch td c k hk1 hk hfail
    rw [mdnCollect, mdnLoop_trunc fetch td c k hfail mdnMaxPages 1 [] hk1
      (by simp only [mdnMaxPages] at hk ⊢; omega)]

/-- Witness for `partial_failure_containment`: one good CNYES page then a
failing fetch of page 2, and a one-page MoneyUDN listing with a failing
page 2. -/
theorem partial_failure_containment_witness :
    (cnyesCrawler
        (fun p => if p = 1 then some ⟨[⟨some 0, 1, "", "", [], ""⟩], 3⟩ else none)
        0 none =
      (cnyesRowsUpTo
        (fun p => if p = 1 then some ⟨[⟨some 0, 1, "", "", [], ""⟩], 3⟩ else none)
        0 none 1 1).map CnyesRow.toDb ∧
     (cnyesCrawlerScan
        (fun p => if p = 1 then some ⟨[⟨some 0, 1, "", "", [], ""⟩], 3⟩ else none)
        0 none).2 = List.range' 1 2) ∧
    mdnCollect (fun p => if p = 1 then some [⟨some 0, "/a", "x", "", "au"⟩] else none)
        0 none =
      mdnLoop (fun p => if p = 1 then some [⟨some 0, "/a", "x", "", "au"⟩] else none)
        0 none 1 1 [] := by
  constructor
  · refine partial_failure_containment.1 _ 0 none 2 (by decide) ?_
      ⟨⟨[⟨some 0, 1, "", "", [], ""⟩], 3⟩, rfl, by decide⟩ rfl
    intro i h1 h2
    have hi : i = 1 := by omega
    subst hi
    exact ⟨⟨[⟨some 0, 1, "", "", [], ""⟩], 3⟩, rfl, by decide, by decide⟩
  · exact partial_failure_containment.2 _ 0 none 2 (by decide) (by decide) rfl

/-! ## C5 -/

/-- C5: counterexample to the claim that, with `hours=2` at crawl time `T`
and candidates at `T−3h`, `T−1h` and `T+1h`, only the `T−1h` item is
retained.  At `T` = noon of day 0 the CNYES hours-mode filter keeps every
item with `article_dt >= cutoff_dt`; the `T+1h` item (newsId 1) passes that
test and is retained alongside the `T−1h` item (newsId 2). -/
theorem cnyes_rolling_window_counterexample :
    buildArticleUrl 1 ∈
      ((cnyesParseNewsItems
        [⟨some 46800, 1, "", "", [], ""⟩, ⟨some 39600, 2, "", "", [], ""⟩,
         ⟨some 32400, 3, "", "", [], ""⟩] 0 (some 36000)).1.map
        (fun r => r.url)) ∧
    ((cnyesParseNewsItems
        [⟨some 46800, 1, "", "", [], ""⟩, ⟨some 39600, 2, "", "", [], ""⟩,
         ⟨some 32400, 3, "", "", [], ""⟩] 0 (some 36000)).1.map
        (fun r => r.url)) ≠ [buildArticleUrl 2] := by
  decide

/-- C5 (amended): for every crawl instant `T`, the hours-mode filter with
cutoff `T−2h` over items published at `T+1h`, `T−1h` and `T−3h` retains
exactly the `T+1h` and `T−1h` items — timestamps at or after the cutoff are
kept with no upper bound at `T` — and flags the `T−3h` item as older. -/
theorem cnyes_rolling_window_retention (T : Int) :
    ((cnyesParseNewsItems
        [⟨some (T + 3600), 1, "", "", [], ""⟩,
         ⟨some (T - 3600), 2, "", "", [], ""⟩,
         ⟨some (T - 3 * 3600), 3, "", "", [], ""⟩] 0
        (some (T - 2 * 3600))).1.map (fun r => r.url)) =
      [buildArticleUrl 1, buildArticleUrl 2] ∧
    (cnyesParseNewsItems
        [⟨some (T + 3600), 1, "", "", [], ""⟩,
         ⟨some (T - 3600), 2, "", "", [], ""⟩,
         ⟨some (T - 3 * 3600), 3, "", "", [], ""⟩] 0
        (some (T - 2 * 3600))).2 = true := by
  simp only [cnyesParseNewsItems]
  split_ifs <;> first
    | exact ⟨rfl, rfl⟩
    | omega

/-! ## C1 counterexample -/

/-- C1: counterexample to the claim that every completed news crawl is
deduplicated by `url`.  `cnyes_news_crawler` keeps no URL set: when the
item with newsId 7 appears on both page 1 and page 2 of a two-page
date-mode scan, the returned table carries its URL twice. -/
theorem cnyes_dedup_counterexample :
    ((cnyesCrawler
        (fun p =>
          if p = 1 then some ⟨[⟨some 0, 7, "", "", [], ""⟩], 2⟩
          else if p = 2 then some ⟨[⟨some 0, 7, "", "", [], ""⟩], 2⟩
          else none) 0 none).map (fun r => r.url)) =
      [buildArticleUrl 7, buildArticleUrl 7] ∧
    ¬ ((cnyesCrawler
        (fun p =>
          if p = 1 then some ⟨[⟨some 0, 7, "", "", [], ""⟩], 2⟩
          else if p = 2 then some ⟨[⟨some 0, 7, "", "", [], ""⟩], 2⟩
          else none) 0 none).map (fun r => r.url)).Nodup := by
  decide

/-! ## C3 counterexample -/

/-- C3: counterexample to the claim that the scanner evaluates every
remaining item of a page after one past the boundary.  MoneyUDN's
`_collect_candidates_from_pages` `break`s at the first older item: on a
date-mode page holding an older item (day 0) followed by an item matching
target day 1, nothing is collected, although the matching item alone would
be. -/
theorem mdn_midpage_break_counterexample :
    (mdnProcessItems 1 none
      [⟨some 0, "/a", "x", "", "au"⟩, ⟨some 86410, "/b", "y", "", "au"⟩]
      []).1 = [] ∧
    (mdnProcessItems 1 none [⟨some 86410, "/b", "y", "", "au"⟩] []).1 =
      [mdnCandOf ⟨some 86410, "/b", "y", "", "au"⟩ 86410] := by
  decide

/-! ## C6 counterexample -/

/-- C6: counterexample to the claim that every news crawler's listing
parser conservatively includes an item whose timestamp cannot be parsed.
CNYES's `parse_news_items` skips an item lacking `publishAt` (logged with a
warning) in both date and hours mode. -/
theorem cnyes_unparseable_skip_counterexample :
    cnyesParseNewsItems [⟨none, 9, "a", "t", [], "c"⟩] 0 none = ([], false) ∧
    cnyesParseNewsItems [⟨none, 9, "a", "t", [], "c"⟩] 0 (some 0) =
      ([], false) := by
  decide

/-- Witness for `news_time_never_empty_string`: a concrete one-article
CNYES run whose returned row has a non-empty NULL-able time. -/
theorem news_time_never_empty_string_witness :
    (⟨some 0, 5, "a", "t", [], "c"⟩ : CnyesItem).publishAt = some 0 ∧
    CnyesRow.toDb (cnyesRowOf ⟨some 0, 5, "a", "t", [], "c"⟩ 0 0) ∈
      cnyesCrawler
        (fun p => if p = 1 then some ⟨[⟨some 0, 5, "a", "t", [], "c"⟩], 1⟩ else none)
        0 none ∧
    (CnyesRow.toDb (cnyesRowOf ⟨some 0, 5, "a", "t", [], "c"⟩ 0 0)).time ≠ some "" := by
  refine ⟨rfl, by decide, ?_⟩
  exact news_time_never_empty_string.1
    (fun p => if p = 1 then some ⟨[⟨some 0, 5, "a", "t", [], "c"⟩], 1⟩ else none)
    0 none _ (by decide)

end TwStock
